import Mathlib

/-!
Shallow embedding of the neuraforge animation/overlay core
(src/effects.py, src/credits.py, src/src/app.py, src/src/core/utils.py).

Python floats are modelled as exact rationals (ℚ); the claims under
verification are structural (pool bounds, clamping, counters, text state),
not about float rounding.  The pseudo-random generator `random.Random` is
modelled as an abstract draw stream: `realOf n` is the value returned by the
n-th call to `random()` / `getrandbits`-style draws, `natOf n` feeds
`randrange`; every call advances the position.  The tkinter canvas is
modelled by the parts the core reads or mutates in a state-bearing way:
its size, a counter producing fresh item ids for `create_oval`, and the
list of item ids passed to `delete`.
-/

/-- src/src/core/utils.py `clamp`. -/
def clamp (x lo hi : ℚ) : ℚ :=
  if x < lo then lo else if x > hi then hi else x

/-- src/src/core/utils.py `rolling_hash`: xorshift-style mixer on 32-bit ints. -/
def rolling_hash (x : ℕ) : ℕ :=
  let m : ℕ := 2 ^ 32
  let x := x % m
  let x := Nat.xor x ((x <<< 13) % m)
  let x := Nat.xor x ((x >>> 17) % m)
  let x := Nat.xor x ((x <<< 5) % m)
  x % m

/-- Abstract model of `random.Random`: a stream of draws and a position. -/
structure Rng where
  realOf : ℕ → ℚ
  natOf : ℕ → ℕ
  pos : ℕ

/-- One call to `rng.random()`. -/
def Rng.random (g : Rng) : ℚ × Rng :=
  (g.realOf g.pos, { g with pos := g.pos + 1 })

/-- One call to `rng.randrange(0, n)`. -/
def Rng.randrange (g : Rng) (n : ℕ) : ℕ × Rng :=
  (g.natOf g.pos % n, { g with pos := g.pos + 1 })

/-- Model of the tkinter canvas state the effects core interacts with. -/
structure Canvas where
  width : ℤ
  height : ℤ
  nextId : ℕ
  deleted : List ℤ

/-- `canvas.create_oval(...)` returns a fresh positive item id. -/
def Canvas.create_oval (cv : Canvas) : ℤ × Canvas :=
  ((cv.nextId : ℤ), { cv with nextId := cv.nextId + 1 })

/-- `canvas.delete(item)`. -/
def Canvas.deleteItem (cv : Canvas) (i : ℤ) : Canvas :=
  { cv with deleted := i :: cv.deleted }

/-- src/effects.py `Particle` dataclass. -/
structure Particle where
  x : ℚ
  y : ℚ
  vx : ℚ
  vy : ℚ
  r : ℚ
  alpha : ℚ
  hue_idx : ℕ
  item : ℤ
deriving DecidableEq

/-- src/effects.py `ParticleField` state: `palette`, `particles`, the
pending-boost counter `self._boost`, and the public `count`. -/
structure ParticleField where
  palette : List String
  particles : List Particle
  boostPending : ℤ
  count : ℕ

/-- `ParticleField.boost(amt)`: `self._boost += max(0, amt)`. -/
def ParticleField.boost (f : ParticleField) (amt : ℤ) : ParticleField :=
  { f with boostPending := f.boostPending + max 0 amt }

/-- One iteration of the loop body of `ParticleField._spawn`: draws
x, y, alpha, radius, vx, vy and a palette index, in source order. -/
def spawnOneParticle (paletteLen : ℕ) (w h : ℚ) (g : Rng) : Particle × Rng :=
  let (u1, g) := g.random
  let x := u1 * w
  let (u2, g) := g.random
  let y := u2 * h
  let (u3, g) := g.random
  let a := 0.25 + u3 * 0.75
  let (u4, g) := g.random
  let r := 1.2 + u4 * 2.6
  let (u5, g) := g.random
  let vx := (u5 - 0.5) * 0.9
  let (u6, g) := g.random
  let vy := (u6 - 0.5) * 0.6
  let (idx, g) := g.randrange paletteLen
  ({ x := x, y := y, vx := vx, vy := vy, r := r, alpha := a, hue_idx := idx, item := -1 }, g)

/-- The list of particles appended by `ParticleField._spawn(n)`. -/
def spawnParticleList (paletteLen : ℕ) (w h : ℚ) : ℕ → Rng → List Particle × Rng
  | 0, g => ([], g)
  | n + 1, g =>
    let pg := spawnOneParticle paletteLen w h g
    let rest := spawnParticleList paletteLen w h n pg.2
    (pg.1 :: rest.1, rest.2)

/-- `ParticleField._spawn(n)`: reads the canvas size and appends n fresh
particles to `self.particles`. -/
def ParticleField.spawn (f : ParticleField) (cv : Canvas) (n : ℕ) (g : Rng) :
    ParticleField × Rng :=
  let w : ℚ := ((max 1 cv.width : ℤ) : ℚ)
  let h : ℚ := ((max 1 cv.height : ℤ) : ℚ)
  let psg := spawnParticleList f.palette.length w h n g
  ({ f with particles := f.particles ++ psg.1 }, psg.2)

/-- `ParticleField.__init__`: empty pool, `_boost = 0`, `count = 0`,
then `self._spawn(42)`. -/
def ParticleField.start (palette : List String) (cv : Canvas) (g : Rng) :
    ParticleField × Rng :=
  let f : ParticleField :=
    { palette := palette, particles := [], boostPending := 0, count := 0 }
  f.spawn cv 42 g

/-- The per-particle body of the update loop in `ParticleField.step`
(src/effects.py lines 65-81): move by velocity, jitter velocity, clamp
velocity, reflect with damping 0.9 and clamp position on boundary hit,
drift and clamp alpha. -/
def updateParticle (w h : ℚ) (p : Particle) (g : Rng) : Particle × Rng :=
  let x := p.x + p.vx
  let y := p.y + p.vy
  let (j1, g) := g.random
  let vx := p.vx + (j1 - 0.5) * 0.02
  let (j2, g) := g.random
  let vy := p.vy + (j2 - 0.5) * 0.02
  let vx := clamp vx (-1.2) 1.2
  let vy := clamp vy (-0.9) 0.9
  let (vx, x) := if x < 0 ∨ x > w then (vx * (-0.9), clamp x 0 w) else (vx, x)
  let (vy, y) := if y < 0 ∨ y > h then (vy * (-0.9), clamp y 0 h) else (vy, y)
  let (j3, g) := g.random
  let alpha := clamp (p.alpha + (j3 - 0.45) * 0.03) 0.18 1.0
  ({ p with x := x, y := y, vx := vx, vy := vy, alpha := alpha }, g)

/-- The update loop of `ParticleField.step` over the whole pool. -/
def updateAllParticles (w h : ℚ) : List Particle → Rng → List Particle × Rng
  | [], g => ([], g)
  | p :: ps, g =>
    let pg := updateParticle w h p g
    let rest := updateAllParticles w h ps pg.2
    (pg.1 :: rest.1, rest.2)

/-- The per-particle body of `ParticleField._render`: create the oval on
first render (assigning `item`), otherwise possibly cycle the palette index
when alpha is near-maximal (the random draw happens only when
`p.alpha > 0.9`, mirroring Python short-circuit evaluation). -/
def renderParticle (paletteLen : ℕ) (p : Particle) (cv : Canvas) (g : Rng) :
    Particle × Canvas × Rng :=
  if p.item = -1 then
    let (i, cv) := cv.create_oval
    ({ p with item := i }, cv, g)
  else
    if p.alpha > 0.9 then
      let (u, g) := g.random
      if u < 0.05 then
        ({ p with hue_idx := (p.hue_idx + 1) % paletteLen }, cv, g)
      else (p, cv, g)
    else (p, cv, g)

/-- `ParticleField._render` over the whole pool. -/
def renderAllParticles (paletteLen : ℕ) : List Particle → Canvas → Rng →
    List Particle × Canvas × Rng
  | [], cv, g => ([], cv, g)
  | p :: ps, cv, g =>
    let pcg := renderParticle paletteLen p cv g
    let rest := renderAllParticles paletteLen ps pcg.2.1 pcg.2.2
    (pcg.1 :: rest.1, rest.2.1, rest.2.2)

/-- The eviction loop of `ParticleField.step` (lines 86-93): pop the k
oldest particles off the front, deleting each one's canvas visual when it
has one.  In the source k is always `len - 160` with `len > 160`, so the
list is never exhausted; popping an empty list is modelled as a no-op. -/
def evictParticles : ℕ → List Particle → Canvas → List Particle × Canvas
  | 0, ps, cv => (ps, cv)
  | _ + 1, [], cv => ([], cv)
  | k + 1, old :: ps, cv =>
    let cv := if old.item ≠ -1 then cv.deleteItem old.item else cv
    evictParticles k ps cv

/-- `ParticleField.step` up to and including `self.count = len(self.particles)`
(lines 56-84): boost drain spawning at most 8, per-particle update,
render, and the count assignment; eviction follows in `ParticleField.step`. -/
def ParticleField.stepPre (f : ParticleField) (cv : Canvas) (g : Rng) :
    ParticleField × Canvas × Rng :=
  let w : ℚ := ((max 1 cv.width : ℤ) : ℚ)
  let h : ℚ := ((max 1 cv.height : ℤ) : ℚ)
  let fg :=
    if f.boostPending > 0 then
      let add := min 8 f.boostPending
      let f2 := { f with boostPending := f.boostPending - add }
      f2.spawn cv add.toNat g
    else (f, g)
  let psg := updateAllParticles w h fg.1.particles fg.2
  let rcg := renderAllParticles fg.1.palette.length psg.1 cv psg.2
  ({ fg.1 with particles := rcg.1, count := rcg.1.length }, rcg.2.1, rcg.2.2)

/-- `ParticleField.step` in full: the pre-eviction phase followed by the
cap-eviction of the oldest particles beyond 160. -/
def ParticleField.step (f : ParticleField) (cv : Canvas) (g : Rng) :
    ParticleField × Canvas × Rng :=
  let s := f.stepPre cv g
  if s.1.particles.length > 160 then
    let e := evictParticles (s.1.particles.length - 160) s.1.particles s.2.1
    ({ s.1 with particles := e.1 }, e.2, s.2.2)
  else s

/-- An interleaving of the public `ParticleField` operations. -/
inductive FieldOp where
  | boost (amt : ℤ)
  | step
deriving DecidableEq

/-- A particle field together with its canvas and generator. -/
structure FieldSys where
  field : ParticleField
  canvas : Canvas
  rng : Rng

/-- Apply one public operation. -/
def FieldSys.apply (s : FieldSys) : FieldOp → FieldSys
  | .boost a => { s with field := s.field.boost a }
  | .step =>
    let r := s.field.step s.canvas s.rng
    { field := r.1, canvas := r.2.1, rng := r.2.2 }

/-- Run a list of public operations from a state. -/
def FieldSys.run (s : FieldSys) (ops : List FieldOp) : FieldSys :=
  ops.foldl FieldSys.apply s

/-- A freshly constructed `ParticleField` system. -/
def FieldSys.start (palette : List String) (cv : Canvas) (g : Rng) : FieldSys :=
  let r := ParticleField.start palette cv g
  { field := r.1, canvas := cv, rng := r.2 }

/-- src/effects.py `Pulse` dataclass. -/
structure Pulse where
  cx : ℚ
  cy : ℚ
  r : ℚ
  vr : ℚ
  life : ℚ
  item : ℤ
deriving DecidableEq

/-- src/effects.py `GlowPulse` state: `palette`, `pulses`, and the pending
energy `self._kick`. -/
structure GlowPulse where
  palette : List String
  pulses : List Pulse
  kickPending : ℚ

/-- `GlowPulse.kick(strength)`: `self._kick = max(self._kick, strength)`. -/
def GlowPulse.kick (gp : GlowPulse) (strength : ℚ) : GlowPulse :=
  { gp with kickPending := max gp.kickPending strength }

/-- `GlowPulse._spawn(w, h, strength)`: the appended ring.  Center is random
in the central region, initial radius is random in [6, 28), growth rate
`vr = 1.6 + strength * 3.2` and life `0.65 + strength * 0.8`. -/
def spawnPulse (w h : ℤ) (strength : ℚ) (g : Rng) : Pulse × Rng :=
  let (u1, g) := g.random
  let cx := (w : ℚ) * (0.22 + u1 * 0.56)
  let (u2, g) := g.random
  let cy := (h : ℚ) * (0.28 + u2 * 0.44)
  let (u3, g) := g.random
  let r0 := 6 + u3 * 22
  let vr := 1.6 + strength * 3.2
  let life := 0.65 + strength * 0.8
  ({ cx := cx, cy := cy, r := r0, vr := vr, life := life, item := -1 }, g)

/-- `GlowPulse._spawn` as a state update: append the fresh ring. -/
def GlowPulse.spawn (gp : GlowPulse) (w h : ℤ) (strength : ℚ) (g : Rng) :
    GlowPulse × Rng :=
  let pg := spawnPulse w h strength g
  ({ gp with pulses := gp.pulses ++ [pg.1] }, pg.2)

/-- `GlowPulse.__init__`: empty ring list, `_kick = 0.0`, then `kick(0.35)`. -/
def GlowPulse.start (palette : List String) : GlowPulse :=
  let gp : GlowPulse := { palette := palette, pulses := [], kickPending := 0 }
  gp.kick 0.35

/-- The aging statements of the ring loop in `GlowPulse.step`:
`p.r += p.vr; p.life -= 0.02`. -/
def Pulse.age (p : Pulse) : Pulse :=
  { p with r := p.r + p.vr, life := p.life - 0.02 }

/-- The per-ring body of `GlowPulse._render`: create the oval on first
render; recoloring does not change modelled state. -/
def renderAllPulses : List Pulse → Canvas → List Pulse × Canvas
  | [], cv => ([], cv)
  | p :: ps, cv =>
    let pc :=
      if p.item = -1 then
        let ic := cv.create_oval
        ({ p with item := ic.1 }, ic.2)
      else (p, cv)
    let rest := renderAllPulses ps pc.2
    (pc.1 :: rest.1, rest.2)

/-- The cap-eviction loop of `GlowPulse.step`: delete the visuals of
`self.pulses[:-8]`. -/
def deletePulseVisuals : List Pulse → Canvas → Canvas
  | [], cv => cv
  | p :: ps, cv =>
    deletePulseVisuals ps (if p.item ≠ -1 then cv.deleteItem p.item else cv)

/-- `GlowPulse.step` up to and including the re-render (src/effects.py
lines 139-157): probabilistic spawn driven by `_kick` (the first random
draw happens only when `_kick > 0`, mirroring Python short-circuit
evaluation of the `and`; the `elif` performs a second draw), ring aging
with removal of rings whose life reached 0, and the render. -/
def GlowPulse.stepPre (gp : GlowPulse) (cv : Canvas) (g : Rng) :
    GlowPulse × Canvas × Rng :=
  let w : ℤ := max 1 cv.width
  let h : ℤ := max 1 cv.height
  let gg :=
    if gp.kickPending > 0 then
      let u1g := g.random
      if u1g.1 < 0.20 then
        let sg := gp.spawn w h gp.kickPending u1g.2
        ({ sg.1 with kickPending := sg.1.kickPending * 0.85 }, sg.2)
      else
        let u2g := u1g.2.random
        if u2g.1 < 0.01 then gp.spawn w h 0.22 u2g.2 else (gp, u2g.2)
    else
      let u2g := g.random
      if u2g.1 < 0.01 then gp.spawn w h 0.22 u2g.2 else (gp, u2g.2)
  let alive := (gg.1.pulses.map Pulse.age).filter (fun p => p.life > 0)
  let rc := renderAllPulses alive cv
  ({ gg.1 with pulses := rc.1 }, rc.2, gg.2)

/-- `GlowPulse.step` in full: the pre-eviction phase, then if more than 8
rings are alive, delete the visuals of the oldest `len - 8` (the slice
`pulses[:-8]`) and keep the last 8 (`pulses[-8:]`). -/
def GlowPulse.step (gp : GlowPulse) (cv : Canvas) (g : Rng) :
    GlowPulse × Canvas × Rng :=
  let s := gp.stepPre cv g
  if s.1.pulses.length > 8 then
    let cv2 := deletePulseVisuals (s.1.pulses.take (s.1.pulses.length - 8)) s.2.1
    ({ s.1 with pulses := s.1.pulses.drop (s.1.pulses.length - 8) }, cv2, s.2.2)
  else s

/-- An interleaving of the public `GlowPulse` operations. -/
inductive PulseOp where
  | kick (strength : ℚ)
  | step

/-- A glow pulse together with its canvas and generator. -/
structure PulseSys where
  pulse : GlowPulse
  canvas : Canvas
  rng : Rng

/-- Apply one public operation. -/
def PulseSys.apply (s : PulseSys) : PulseOp → PulseSys
  | .kick k => { s with pulse := s.pulse.kick k }
  | .step =>
    let r := s.pulse.step s.canvas s.rng
    { pulse := r.1, canvas := r.2.1, rng := r.2.2 }

/-- Run a list of public operations from a state. -/
def PulseSys.run (s : PulseSys) (ops : List PulseOp) : PulseSys :=
  ops.foldl PulseSys.apply s

/-- A freshly constructed `GlowPulse` system. -/
def PulseSys.start (palette : List String) (cv : Canvas) (g : Rng) : PulseSys :=
  { pulse := GlowPulse.start palette, canvas := cv, rng := g }

/-- src/credits.py `CreditsOverlay._credits_lines`: the scripted credit
lines; index 12 is the redacted sentinel. -/
def credits_lines : List String :=
  [ "neuraforge — internal demo build",
    "",
    "Design: Modern Tk",
    "UI: ttk + canvas",
    "Effects: particles + glow pulses",
    "Challenge: OSINT pivot",
    "",
    "Special thanks:",
    "• public corporate website",
    "• naming conventions",
    "• curious investigators",
    "",
    "Author: [REDACTED]",
    "",
    "— end —" ]

/-- The revealed author text `f"Author: {first} {last}"`. -/
def authorText (first last : String) : String :=
  "Author: " ++ first ++ " " ++ last

/-- Python `str.strip()`: drop leading and trailing whitespace.  Written
over the character list so it evaluates inside the kernel. -/
def stripString (s : String) : String :=
  ⟨((s.data.dropWhile Char.isWhitespace).reverse.dropWhile
      Char.isWhitespace).reverse⟩

/-- The search-and-swap loop of `CreditsOverlay._reveal_author_if_needed`:
walk the credit lines, replace the first whose stripped text is the
redacted placeholder, and stop (`break`). -/
def replaceAuthorOnce (first last : String) : List String → List String
  | [] => []
  | s :: rest =>
    if stripString s = "Author: [REDACTED]" then authorText first last :: rest
    else s :: replaceAuthorOnce first last rest

/-- `CreditsOverlay._reveal_author_if_needed(t)`: no-op before the delay
(`t * 1000 < reveal_delay_ms`), otherwise the swap loop. -/
def revealAuthorIfNeeded (delayMs : ℚ) (first last : String) (t : ℚ)
    (lines : List String) : List String :=
  if t * 1000 < delayMs then lines else replaceAuthorOnce first last lines

/-- The credit-line texts after a `show()` session whose frame callbacks ran
at elapsed times `ts` (each `_loop` call applies
`_reveal_author_if_needed`); the scene starts from `_credits_lines`. -/
def runCreditsFrames (delayMs : ℚ) (first last : String) (ts : List ℚ) :
    List String :=
  ts.foldl (fun lines t => revealAuthorIfNeeded delayMs first last t lines)
    credits_lines

/-- src/src/app.py constants for the credits overlay. -/
def AUTHOR_FIRST : String := "Alex"

/-- src/src/app.py `AUTHOR_LAST`. -/
def AUTHOR_LAST : String := "Dubois"

/-- src/src/app.py `CREDITS_REVEAL_DELAY_MS`. -/
def CREDITS_REVEAL_DELAY_MS : ℚ := 50

/-- The modelled observable state of a `CreditsOverlay` for teardown:
the `_running` flag, the pending frame-callback handle `_job`, whether the
grab is held, whether the widget tree is destroyed, and how many times the
caller-supplied `on_close` callback has run. -/
structure OverlayState where
  running : Bool
  job : Option ℕ
  grabbed : Bool
  destroyed : Bool
  closeCalls : ℕ
deriving DecidableEq

/-- Which teardown steps raise an exception in this `close()` call.  Each
step in the source is wrapped in `try ... except Exception: pass`, so a
raising step leaves its state change undone and teardown proceeds. -/
structure TeardownFaults where
  cancelFails : Bool
  grabFails : Bool
  destroyFails : Bool

/-- `CreditsOverlay.close` (src/credits.py lines 67-84): a no-op unless
`_running`; otherwise clear `_running`, then run the three defensively
wrapped teardown steps, then invoke the close callback unconditionally. -/
def CreditsOverlay.close (flt : TeardownFaults) (s : OverlayState) :
    OverlayState :=
  if s.running = false then s
  else
    let s := { s with running := false }
    let s :=
      if flt.cancelFails then s
      else if s.job.isSome then { s with job := none } else s
    let s := if flt.grabFails then s else { s with grabbed := false }
    let s := if flt.destroyFails then s else { s with destroyed := true }
    { s with closeCalls := s.closeCalls + 1 }

/-- `CreditsOverlay.show`: mark running and record the session start; the
scene and loop are modelled separately. -/
def CreditsOverlay.show (s : OverlayState) : OverlayState :=
  { s with running := true }

/-- src/src/core/utils.py `fmt_uptime`; `int(seconds)` truncates toward
zero, modelled with `Rat.floor` composed on nonnegative inputs (uptime is
nonnegative), where floor and truncation agree. -/
def fmt_uptime (seconds : ℚ) : String :=
  let s : ℤ := ⌊seconds⌋
  if s < 60 then toString s ++ "s"
  else
    let m := s / 60
    let s := s % 60
    if m < 60 then toString m ++ "m " ++ toString s ++ "s"
    else
      let h := m / 60
      let m := m % 60
      toString h ++ "h " ++ toString m ++ "m"

/-- Render a rational with two decimal places, modelling Python's
`f"{v:.2f}"` on the exact value (rounding to nearest). -/
def fmtTwoDecimals (v : ℚ) : String :=
  let c : ℤ := round (v * 100)
  let ip := c / 100
  let fp := (c % 100).toNat
  toString ip ++ "." ++ (if fp < 10 then "0" else "") ++ toString fp

/-- The division loop of `fmt_bytes`: divide by 1024 while `v >= 1024` and
fewer than `len(units) - 1 = 3` promotions happened. -/
def fmtBytesLoop (v : ℚ) (i : ℕ) : ℚ × ℕ :=
  if h : 1024 ≤ v ∧ i < 3 then fmtBytesLoop (v / 1024) (i + 1) else (v, i)
termination_by 3 - i
decreasing_by omega

/-- src/src/core/utils.py `fmt_bytes`. -/
def fmt_bytes (n : ℕ) : String :=
  if n < 1024 then toString n ++ " B"
  else
    let units := ["KB", "MB", "GB", "TB"]
    let (v, i) := fmtBytesLoop (n : ℚ) 0
    fmtTwoDecimals v ++ " " ++ units.getD i ""

/-- src/src/app.py `AppState` dataclass. -/
structure AppState where
  start_time : ℚ
  runs : ℕ
  pulses : ℕ
  particles : ℕ
  bytes_processed : ℕ
  last_action : String

/-- The little-endian 4-byte encoding `x.to_bytes(4, "little")`. -/
def to_bytes4 (x : ℕ) : List ℕ :=
  [x % 256, x / 256 % 256, x / 256 ^ 2 % 256, x / 256 ^ 3 % 256]

/-- One iteration of the workload loop in `NeuraForgeApp._on_run_demo`:
draw a 32-bit value, fold it into the checksum through `rolling_hash`, and
append its 4 bytes to the payload. -/
def runDemoIter (bits : ℕ → ℕ) (acc : ℕ × List ℕ) (i : ℕ) : ℕ × List ℕ :=
  let x := bits i % 2 ^ 32
  (Nat.xor acc.1 (rolling_hash x), acc.2 ++ to_bytes4 x)

/-- The 120-iteration workload loop of `_on_run_demo`; `bits` abstracts the
seeded generator's `getrandbits(32)` stream. -/
def runDemoWork (bits : ℕ → ℕ) : ℕ × List ℕ :=
  (List.range 120).foldl (runDemoIter bits) (0, [])

/-- `NeuraForgeApp._on_run_demo` state effects: bump the run counter, run
the synthetic workload, add the payload length to the byte counter, and
feed the effects components.  Returns the new state, the boosted field,
the kicked pulse, and the checksum. -/
def onRunDemo (st : AppState) (bits : ℕ → ℕ) (field : ParticleField)
    (pulse : GlowPulse) : AppState × ParticleField × GlowPulse × ℕ :=
  let st := { st with runs := st.runs + 1, last_action := "run_demo" }
  let work := runDemoWork bits
  let total := work.1
  let processed := work.2.length
  let st := { st with bytes_processed := st.bytes_processed + processed }
  let field := field.boost (24 + ((st.runs : ℤ) % 8) * 4)
  let pulse := pulse.kick (0.6 + ((st.runs : ℤ) % 3) * 0.12)
  (st, field, pulse, total)

/-- A repeating tkinter `after` timer: the delay passed at registration and
the delay the callback passes when it re-registers itself. -/
structure RepeatingTimer where
  firstDelayMs : ℕ
  repeatDelayMs : ℕ

/-- `NeuraForgeApp._schedule_ticks` (src/src/app.py lines 225-233): the
stats tick is registered with `self.after(250, tick)` and `tick`
re-registers itself with `self.after(250, tick)`. -/
def statsTimer : RepeatingTimer :=
  { firstDelayMs := 250, repeatDelayMs := 250 }

/-- `NeuraForgeApp._schedule_fx` (lines 235-244): the effects frame timer,
registered and re-registered with `self.after(16, frame)`. -/
def fxTimer : RepeatingTimer :=
  { firstDelayMs := 16, repeatDelayMs := 16 }

/-- Elapsed milliseconds at which the n-th firing of a repeating timer
occurs (callbacks re-register immediately after running). -/
def RepeatingTimer.fireTimeMs (t : RepeatingTimer) (n : ℕ) : ℕ :=
  t.firstDelayMs + n * t.repeatDelayMs

/-- The four card values written by `NeuraForgeApp._sync_stats`
(src/src/app.py lines 246-251), in order: uptime, runs, particles,
processed bytes. -/
def syncStats (now : ℚ) (st : AppState) (field : ParticleField) :
    String × String × String × String :=
  let up := now - st.start_time
  (fmt_uptime up, toString st.runs, toString field.count,
    fmt_bytes st.bytes_processed)

/-! ### Basic lemmas about the particle field -/

/-- `clamp` lands in the interval when the bounds are ordered. -/
theorem clamp_mem (x lo hi : ℚ) (h : lo ≤ hi) :
    lo ≤ clamp x lo hi ∧ clamp x lo hi ≤ hi := by
  unfold clamp
  split_ifs <;> constructor <;> linarith

/-- `_spawn(n)` produces exactly n particles. -/
theorem spawnParticleList_length (pl : ℕ) (w h : ℚ) (n : ℕ) (g : Rng) :
    (spawnParticleList pl w h n g).1.length = n := by
  induction n generalizing g with
  | zero => rfl
  | succ n ih => simp [spawnParticleList, ih]

/-- The update loop preserves the pool size. -/
theorem updateAllParticles_length (w h : ℚ) (ps : List Particle) (g : Rng) :
    (updateAllParticles w h ps g).1.length = ps.length := by
  induction ps generalizing g with
  | nil => rfl
  | cons p ps ih => simp [updateAllParticles, ih]

/-- The render loop preserves the pool size. -/
theorem renderAllParticles_length (pl : ℕ) (ps : List Particle) (cv : Canvas)
    (g : Rng) :
    (renderAllParticles pl ps cv g).1.length = ps.length := by
  induction ps generalizing cv g with
  | nil => rfl
  | cons p ps ih => simp [renderAllParticles, ih]

/-- Rendering a particle keeps its alpha and velocity, and leaves it with a
real canvas item. -/
theorem renderParticle_keeps (pl : ℕ) (p : Particle) (cv : Canvas) (g : Rng) :
    (renderParticle pl p cv g).1.alpha = p.alpha ∧
    (renderParticle pl p cv g).1.vx = p.vx ∧
    (renderParticle pl p cv g).1.vy = p.vy ∧
    (renderParticle pl p cv g).1.item ≠ -1 := by
  unfold renderParticle
  split_ifs with h1 h2
  · refine ⟨rfl, rfl, rfl, ?_⟩
    simp only [Canvas.create_oval]
    omega
  · simp only [Rng.random]
    split_ifs with h3
    · exact ⟨rfl, rfl, rfl, h1⟩
    · exact ⟨rfl, rfl, rfl, h1⟩
  · exact ⟨rfl, rfl, rfl, h1⟩

/-- Every particle coming out of the render loop keeps the alpha and
velocity of a particle that went in, and owns a canvas item. -/
theorem renderAllParticles_mem (pl : ℕ) (ps : List Particle) (cv : Canvas)
    (g : Rng) :
    ∀ q ∈ (renderAllParticles pl ps cv g).1, ∃ p ∈ ps,
      q.alpha = p.alpha ∧ q.vx = p.vx ∧ q.vy = p.vy ∧ q.item ≠ -1 := by
  induction ps generalizing cv g with
  | nil => intro q hq; simp [renderAllParticles] at hq
  | cons p ps ih =>
    intro q hq
    simp only [renderAllParticles, List.mem_cons] at hq
    rcases hq with hq | hq
    · refine ⟨p, List.mem_cons_self p ps, ?_⟩
      subst hq
      exact renderParticle_keeps pl p cv g
    · obtain ⟨p2, hp2, hkeep⟩ := ih _ _ q hq
      exact ⟨p2, List.mem_cons_of_mem p hp2, hkeep⟩

/-- The eviction loop pops exactly the first k particles. -/
theorem evictParticles_fst (k : ℕ) (ps : List Particle) (cv : Canvas) :
    (evictParticles k ps cv).1 = ps.drop k := by
  induction k generalizing ps cv with
  | zero => rfl
  | succ k ih =>
    cases ps with
    | nil => simp [evictParticles]
    | cons p ps => simp [evictParticles, ih]

/-- The eviction loop never forgets an already deleted item. -/
theorem evictParticles_deleted_mono (k : ℕ) (ps : List Particle) (cv : Canvas) :
    ∀ i ∈ cv.deleted, i ∈ (evictParticles k ps cv).2.deleted := by
  induction k generalizing ps cv with
  | zero => intro i hi; exact hi
  | succ k ih =>
    intro i hi
    cases ps with
    | nil => exact hi
    | cons p ps =>
      simp only [evictParticles]
      split_ifs with h
      · exact ih ps _ i (List.mem_cons_of_mem _ hi)
      · exact ih ps _ i hi

/-- The eviction loop deletes the visual of every popped particle that has
one. -/
theorem evictParticles_deleted (k : ℕ) (ps : List Particle) (cv : Canvas) :
    ∀ p ∈ ps.take k, p.item ≠ -1 →
      p.item ∈ (evictParticles k ps cv).2.deleted := by
  induction k generalizing ps cv with
  | zero => intro p hp; simp at hp
  | succ k ih =>
    intro q hq hitem
    cases ps with
    | nil => simp at hq
    | cons p ps =>
      simp only [List.take_succ_cons, List.mem_cons] at hq
      simp only [evictParticles]
      rcases hq with rfl | hq
      · rw [if_pos hitem]
        exact evictParticles_deleted_mono k ps _ _ (by simp [Canvas.deleteItem])
      · split_ifs with h
        · exact ih ps _ q hq hitem
        · exact ih ps _ q hq hitem

/-- Number of particles the boost drain spawns in one `step()`. -/
def boostAdd (b : ℤ) : ℕ := if 0 < b then (min 8 b).toNat else 0

/-- Amount `self._boost` decreases in one `step()`. -/
def boostSub (b : ℤ) : ℤ := if 0 < b then min 8 b else 0

/-- Characterization of the pre-eviction phase of `step()`: the pool grows
by the boost drain, `count` records that pre-eviction size, and the pending
boost decreases by what was drained. -/
theorem stepPre_char (f : ParticleField) (cv : Canvas) (g : Rng) :
    (f.stepPre cv g).1.particles.length
        = f.particles.length + boostAdd f.boostPending
    ∧ (f.stepPre cv g).1.count = f.particles.length + boostAdd f.boostPending
    ∧ (f.stepPre cv g).1.boostPending
        = f.boostPending - boostSub f.boostPending
    ∧ (f.stepPre cv g).1.palette = f.palette := by
  by_cases h : f.boostPending > 0 <;>
    simp [ParticleField.stepPre, ParticleField.spawn, boostAdd, boostSub, h,
      renderAllParticles_length, updateAllParticles_length,
      spawnParticleList_length]

/-- Characterization of the numeric effect of a full `step()`. -/
theorem step_char (f : ParticleField) (cv : Canvas) (g : Rng) :
    (f.step cv g).1.particles.length
        = min 160 (f.particles.length + boostAdd f.boostPending)
    ∧ (f.step cv g).1.count = f.particles.length + boostAdd f.boostPending
    ∧ (f.step cv g).1.boostPending
        = f.boostPending - boostSub f.boostPending := by
  obtain ⟨h1, h2, h3, _⟩ := stepPre_char f cv g
  by_cases h : (f.stepPre cv g).1.particles.length > 160
  · simp only [ParticleField.step, h, if_true, evictParticles_fst,
      List.length_drop]
    exact ⟨by omega, h2, h3⟩
  · simp only [ParticleField.step, h, if_false]
    exact ⟨by omega, h2, h3⟩

/-- A fresh particle field holds exactly 42 particles. -/
theorem start_field_length (palette : List String) (cv : Canvas) (g : Rng) :
    (FieldSys.start palette cv g).field.particles.length = 42 := by
  simp [FieldSys.start, ParticleField.start, ParticleField.spawn,
    spawnParticleList_length]

/-- Any interleaving of `boost()` and `step()` keeps the pool at or below
160 particles, provided it starts there. -/
theorem run_length_le (ops : List FieldOp) (s : FieldSys)
    (hs : s.field.particles.length ≤ 160) :
    (s.run ops).field.particles.length ≤ 160 := by
  induction ops generalizing s with
  | nil => exact hs
  | cons op ops ih =>
    show ((s.apply op).run ops).field.particles.length ≤ 160
    cases op with
    | boost a => exact ih _ hs
    | step =>
      refine ih _ ?_
      have h := (step_char s.field s.canvas s.rng).1
      simp only [FieldSys.apply]
      omega

/-- The bounds the spec asserts for every particle after a step. -/
def particleBounds (p : Particle) : Prop :=
  0.18 ≤ p.alpha ∧ p.alpha ≤ 1 ∧ -1.2 ≤ p.vx ∧ p.vx ≤ 1.2
    ∧ -0.9 ≤ p.vy ∧ p.vy ≤ 0.9

instance (p : Particle) : Decidable (particleBounds p) := by
  unfold particleBounds
  infer_instance

/-- The alpha clamp lands in [0.18, 1]. -/
theorem clampAlpha_mem (x : ℚ) :
    0.18 ≤ clamp x 0.18 1.0 ∧ clamp x 0.18 1.0 ≤ 1 := by
  have h := clamp_mem x 0.18 1.0 (by norm_num)
  exact ⟨h.1, by linarith [h.2]⟩

/-- The vx clamp lands in [-1.2, 1.2]. -/
theorem clampVx_mem (x : ℚ) :
    -1.2 ≤ clamp x (-1.2) 1.2 ∧ clamp x (-1.2) 1.2 ≤ 1.2 :=
  clamp_mem x (-1.2) 1.2 (by norm_num)

/-- The vy clamp lands in [-0.9, 0.9]. -/
theorem clampVy_mem (x : ℚ) :
    -0.9 ≤ clamp x (-0.9) 0.9 ∧ clamp x (-0.9) 0.9 ≤ 0.9 :=
  clamp_mem x (-0.9) 0.9 (by norm_num)

/-- A reflected clamped vx stays in [-1.2, 1.2]. -/
theorem reflectVx_mem (x : ℚ) :
    -1.2 ≤ clamp x (-1.2) 1.2 * (-0.9) ∧ clamp x (-1.2) 1.2 * (-0.9) ≤ 1.2 := by
  obtain ⟨h1, h2⟩ := clampVx_mem x
  constructor <;> nlinarith

/-- A reflected clamped vy stays in [-0.9, 0.9]. -/
theorem reflectVy_mem (x : ℚ) :
    -0.9 ≤ clamp x (-0.9) 0.9 * (-0.9) ∧ clamp x (-0.9) 0.9 * (-0.9) ≤ 0.9 := by
  obtain ⟨h1, h2⟩ := clampVy_mem x
  constructor <;> nlinarith

/-- One pass of the update loop leaves alpha and velocity clamped. -/
theorem updateParticle_bounds (w h : ℚ) (p : Particle) (g : Rng) :
    particleBounds (updateParticle w h p g).1 := by
  by_cases hx : p.x + p.vx < 0 ∨ p.x + p.vx > w
  · by_cases hy : p.y + p.vy < 0 ∨ p.y + p.vy > h
    · simp only [particleBounds, updateParticle, Rng.random, hx, hy, if_true,
        if_false, ite_true, ite_false]
      exact ⟨(clampAlpha_mem _).1, (clampAlpha_mem _).2, (reflectVx_mem _).1,
        (reflectVx_mem _).2, (reflectVy_mem _).1, (reflectVy_mem _).2⟩
    · simp only [particleBounds, updateParticle, Rng.random, hx, hy, if_true,
        if_false, ite_true, ite_false]
      exact ⟨(clampAlpha_mem _).1, (clampAlpha_mem _).2, (reflectVx_mem _).1,
        (reflectVx_mem _).2, (clampVy_mem _).1, (clampVy_mem _).2⟩
  · by_cases hy : p.y + p.vy < 0 ∨ p.y + p.vy > h
    · simp only [particleBounds, updateParticle, Rng.random, hx, hy, if_true,
        if_false, ite_true, ite_false]
      exact ⟨(clampAlpha_mem _).1, (clampAlpha_mem _).2, (clampVx_mem _).1,
        (clampVx_mem _).2, (reflectVy_mem _).1, (reflectVy_mem _).2⟩
    · simp only [particleBounds, updateParticle, Rng.random, hx, hy, if_true,
        if_false, ite_true, ite_false]
      exact ⟨(clampAlpha_mem _).1, (clampAlpha_mem _).2, (clampVx_mem _).1,
        (clampVx_mem _).2, (clampVy_mem _).1, (clampVy_mem _).2⟩

/-- Every particle coming out of the update loop is in bounds. -/
theorem updateAllParticles_bounds (w h : ℚ) (ps : List Particle) (g : Rng) :
    ∀ q ∈ (updateAllParticles w h ps g).1, particleBounds q := by
  induction ps generalizing g with
  | nil => intro q hq; simp [updateAllParticles] at hq
  | cons p ps ih =>
    intro q hq
    simp only [updateAllParticles, List.mem_cons] at hq
    rcases hq with rfl | hq
    · exact updateParticle_bounds w h p g
    · exact ih _ q hq

/-- Every particle in the pre-eviction pool of a step is in bounds and owns
a canvas item. -/
theorem stepPre_mem (f : ParticleField) (cv : Canvas) (g : Rng) :
    ∀ q ∈ (f.stepPre cv g).1.particles, particleBounds q ∧ q.item ≠ -1 := by
  intro q hq
  by_cases h : f.boostPending > 0 <;>
    simp only [ParticleField.stepPre, h, if_true, if_false] at hq <;>
    obtain ⟨p, hp, ha, hvx, hvy, hitem⟩ :=
      renderAllParticles_mem _ _ _ _ q hq <;>
    have hb := updateAllParticles_bounds _ _ _ _ p hp <;>
    unfold particleBounds at hb ⊢ <;>
    rw [ha, hvx, hvy] <;>
    exact ⟨hb, hitem⟩

/-- Particles surviving the full step come from the pre-eviction pool. -/
theorem step_mem_stepPre (f : ParticleField) (cv : Canvas) (g : Rng) :
    ∀ q ∈ (f.step cv g).1.particles, q ∈ (f.stepPre cv g).1.particles := by
  intro q hq
  by_cases h : (f.stepPre cv g).1.particles.length > 160
  · simp only [ParticleField.step, h, if_true, evictParticles_fst] at hq
    exact List.drop_subset _ _ hq
  · simpa only [ParticleField.step, h, if_false] using hq

/-! ### Claim C3 and C6 theorems -/

/-- C3: for every frame count and every interleaving of `boost()` calls the
particle pool holds at most 160 particles after each `step()` (and already
at start), and when the cap evicts, the removed entries are exactly the
oldest prefix of the pre-eviction pool (FIFO) and each removed entry's
canvas visual is deleted. -/
theorem C3_pool_cap_fifo :
    (∀ (palette : List String) (cv : Canvas) (g : Rng) (ops : List FieldOp),
      ((FieldSys.start palette cv g).run ops).field.particles.length ≤ 160)
    ∧ ∀ (f : ParticleField) (cv : Canvas) (g : Rng),
      (f.step cv g).1.particles
          = (f.stepPre cv g).1.particles.drop
              ((f.stepPre cv g).1.particles.length - 160)
      ∧ ((f.stepPre cv g).1.particles.take
            ((f.stepPre cv g).1.particles.length - 160)).Forall
          (fun q => q.item ∈ (f.step cv g).2.1.deleted) := by
  constructor
  · intro palette cv g ops
    exact run_length_le ops _ (by rw [start_field_length]; norm_num)
  · intro f cv g
    by_cases h : (f.stepPre cv g).1.particles.length > 160
    · constructor
      · simp only [ParticleField.step, h, if_true, evictParticles_fst]
      · rw [List.forall_iff_forall_mem]
        intro q hq
        simp only [ParticleField.step, h, if_true]
        exact evictParticles_deleted _ _ _ q hq
          (stepPre_mem f cv g q (List.take_subset _ _ hq)).2
    · have hz : (f.stepPre cv g).1.particles.length - 160 = 0 := by omega
      constructor
      · simp only [ParticleField.step, h, if_false, hz, List.drop_zero]
      · rw [hz, List.take_zero]
        exact trivial

/-- C6: at the end of every `step()`, every particle in the pool has alpha
in [0.18, 1.0], vx in [-1.2, 1.2] and vy in [-0.9, 0.9]. -/
theorem C6_alpha_velocity_clamped (f : ParticleField) (cv : Canvas) (g : Rng) :
    ((f.step cv g).1.particles).Forall
      (fun q => 0.18 ≤ q.alpha ∧ q.alpha ≤ 1 ∧ -1.2 ≤ q.vx ∧ q.vx ≤ 1.2
        ∧ -0.9 ≤ q.vy ∧ q.vy ≤ 0.9) := by
  rw [List.forall_iff_forall_mem]
  intro q hq
  exact (stepPre_mem f cv g q (step_mem_stepPre f cv g q hq)).1

/-! ### Boost drain (C5) and count behavior (C10) -/

/-- Pending boost after a pure run of n `step()` calls. -/
theorem boost_after_steps (s : FieldSys) (n : ℕ)
    (hb : 0 ≤ s.field.boostPending) :
    (s.run (List.replicate n FieldOp.step)).field.boostPending
      = max 0 (s.field.boostPending - 8 * n) := by
  induction n generalizing s with
  | zero =>
    show s.field.boostPending = _
    omega
  | succ n ih =>
    show ((s.apply .step).run (List.replicate n FieldOp.step)).field.boostPending = _
    have hb2 := (step_char s.field s.canvas s.rng).2.2
    have hb3 : (s.apply .step).field.boostPending
        = s.field.boostPending - boostSub s.field.boostPending := hb2
    rw [ih (s.apply .step) (by rw [hb3]; unfold boostSub; split_ifs <;> omega)]
    rw [hb3]
    unfold boostSub
    split_ifs <;> omega

/-- Total number of particles the drain spawns over n steps, in closed
form. -/
theorem drain_total (a : ℤ) (ha : 0 ≤ a) (n : ℕ) :
    (Finset.range n).sum (fun i => boostAdd (max 0 (a - 8 * i)))
      = (min a (8 * n)).toNat := by
  induction n with
  | zero => simp; omega
  | succ n ih =>
    rw [Finset.sum_range_succ, ih]
    unfold boostAdd
    split_ifs with h <;> push_cast <;> omega

/-- C5: after `boost(a)` on a field with no pending boost, the pending
boost after n steps is `max 0 (a - 8n)`; every step spawns exactly
`min(8, remaining)` particles into the pool (never more than 8); in
particular the step after i draining steps spawns `min(8, max 0 (a - 8i))`,
and the total spawned over the drain is `min a (8n)` — exactly `a` once
`8n ≥ a`. -/
theorem C5_boost_drain (f : ParticleField) (cv : Canvas) (g : Rng) (a : ℤ)
    (hb : f.boostPending = 0) (ha : 0 ≤ a) (n : ℕ) :
    ((FieldSys.run { field := f.boost a, canvas := cv, rng := g }
        (List.replicate n FieldOp.step)).field.boostPending
      = max 0 (a - 8 * n))
    ∧ (∀ (f2 : ParticleField) (cv2 : Canvas) (g2 : Rng),
        (f2.stepPre cv2 g2).1.particles.length
          = f2.particles.length + boostAdd f2.boostPending
        ∧ boostAdd f2.boostPending ≤ 8)
    ∧ (∀ (i : ℕ) (cv2 : Canvas) (g2 : Rng),
        (((FieldSys.run { field := f.boost a, canvas := cv, rng := g }
            (List.replicate i FieldOp.step)).field.stepPre cv2 g2).1.particles.length
          = (FieldSys.run { field := f.boost a, canvas := cv, rng := g }
              (List.replicate i FieldOp.step)).field.particles.length
            + boostAdd (max 0 (a - 8 * i))))
    ∧ (Finset.range n).sum (fun i => boostAdd (max 0 (a - 8 * i)))
        = (min a (8 * n)).toNat
    ∧ (8 * n ≥ a →
        (Finset.range n).sum (fun i => boostAdd (max 0 (a - 8 * i))) = a.toNat) := by
  have hstart : ({ field := f.boost a, canvas := cv, rng := g } :
      FieldSys).field.boostPending = a := by
    simp [ParticleField.boost, hb]
    omega
  refine ⟨?_, ?_, ?_, drain_total a ha n, ?_⟩
  · rw [boost_after_steps _ n (by rw [hstart]; exact ha), hstart]
  · intro f2 cv2 g2
    refine ⟨(stepPre_char f2 cv2 g2).1, ?_⟩
    unfold boostAdd
    split_ifs <;> omega
  · intro i cv2 g2
    have hbi := boost_after_steps
      ({ field := f.boost a, canvas := cv, rng := g } : FieldSys) i
      (by rw [hstart]; exact ha)
    rw [hstart] at hbi
    rw [(stepPre_char _ cv2 g2).1, hbi]
  · intro hge
    rw [drain_total a ha n]
    omega

/-- The numeric shadow (pool length, pending boost, count) of one public
particle-field operation. -/
def fieldNumsApply (s : ℕ × ℤ × ℕ) : FieldOp → ℕ × ℤ × ℕ
  | .boost a => (s.1, s.2.1 + max 0 a, s.2.2)
  | .step =>
    (min 160 (s.1 + boostAdd s.2.1), s.2.1 - boostSub s.2.1,
      s.1 + boostAdd s.2.1)

/-- Correspondence between a run of public operations and its numeric
shadow. -/
theorem run_nums (ops : List FieldOp) (s : FieldSys) :
    ((s.run ops).field.particles.length, (s.run ops).field.boostPending,
      (s.run ops).field.count)
    = ops.foldl fieldNumsApply
        (s.field.particles.length, s.field.boostPending, s.field.count) := by
  induction ops generalizing s with
  | nil => rfl
  | cons op ops ih =>
    have h : ((s.apply op).field.particles.length,
        (s.apply op).field.boostPending, (s.apply op).field.count)
        = fieldNumsApply (s.field.particles.length, s.field.boostPending,
            s.field.count) op := by
      cases op with
      | boost a =>
        simp [FieldSys.apply, ParticleField.boost, fieldNumsApply]
      | step =>
        obtain ⟨h1, h2, h3⟩ := step_char s.field s.canvas s.rng
        simp only [FieldSys.apply, fieldNumsApply, Prod.mk.injEq]
        exact ⟨h1, h3, h2⟩
    rw [List.foldl_cons, ← h]
    exact ih (s.apply op)

/-- A fresh particle field has no pending boost. -/
theorem start_field_boost (palette : List String) (cv : Canvas) (g : Rng) :
    (FieldSys.start palette cv g).field.boostPending = 0 := by
  simp [FieldSys.start, ParticleField.start, ParticleField.spawn]

/-- A fresh particle field has `count = 0` (it is first set by `step()`). -/
theorem start_field_count (palette : List String) (cv : Canvas) (g : Rng) :
    (FieldSys.start palette cv g).field.count = 0 := by
  simp [FieldSys.start, ParticleField.start, ParticleField.spawn]

/-- `count` never exceeds 168 on any reachable run. -/
theorem run_count_le (ops : List FieldOp) (s : FieldSys)
    (hs : s.field.particles.length ≤ 160) (hc : s.field.count ≤ 168) :
    (s.run ops).field.count ≤ 168 := by
  induction ops generalizing s with
  | nil => exact hc
  | cons op ops ih =>
    show ((s.apply op).run ops).field.count ≤ 168
    cases op with
    | boost a =>
      refine ih _ ?_ ?_ <;> simp only [FieldSys.apply, ParticleField.boost]
      · exact hs
      · exact hc
    | step =>
      obtain ⟨h1, h2, h3⟩ := step_char s.field s.canvas s.rng
      have hadd : boostAdd s.field.boostPending ≤ 8 := by
        unfold boostAdd
        split_ifs <;> omega
      refine ih _ ?_ ?_ <;> simp only [FieldSys.apply] <;> omega

/-- A concrete canvas for witness executions. -/
def cvDemo : Canvas := { width := 800, height := 190, nextId := 1, deleted := [] }

/-- A concrete all-zeros draw stream for witness executions. -/
def rngZero : Rng := { realOf := fun _ => 0, natOf := fun _ => 0, pos := 0 }

/-- A concrete palette for witness executions. -/
def paletteDemo : List String := ["#6ee7ff", "#a78bfa", "#34d399"]

/-- The operation sequence that drives a fresh field to a full pool of 160
with a pending boost, then steps once more. -/
def opsTo168 : List FieldOp :=
  FieldOp.boost 118 :: (List.replicate 15 FieldOp.step
    ++ [FieldOp.boost 8, FieldOp.step])

/-- C10: after every `step()`, the public `count` equals the pre-eviction
pool size; it stays at most 168 on every reachable run but does exceed 160
on some reachable runs, reaching exactly 168 while the pool itself ends the
step at 160; and the stats card for particles displays exactly
`str(self.particles.count)`. -/
theorem C10_count_reads_pre_eviction :
    (∀ (f : ParticleField) (cv : Canvas) (g : Rng),
      (f.step cv g).1.count = (f.stepPre cv g).1.particles.length)
    ∧ (∀ (palette : List String) (cv : Canvas) (g : Rng) (ops : List FieldOp),
        ((FieldSys.start palette cv g).run ops).field.count ≤ 168)
    ∧ (((FieldSys.start paletteDemo cvDemo rngZero).run opsTo168).field.count
          = 168
        ∧ ((FieldSys.start paletteDemo cvDemo
            rngZero).run opsTo168).field.particles.length = 160)
    ∧ (∀ (now : ℚ) (st : AppState) (f : ParticleField),
        (syncStats now st f).2.2.1 = toString f.count) := by
  refine ⟨?_, ?_, ?_, fun now st f => rfl⟩
  · intro f cv g
    obtain ⟨h1, h2, _⟩ := step_char f cv g
    have hpre := (stepPre_char f cv g).1
    rw [h2, hpre]
  · intro palette cv g ops
    exact run_count_le ops _
      (by rw [start_field_length]; norm_num)
      (by rw [start_field_count]; norm_num)
  · have h := run_nums opsTo168 (FieldSys.start paletteDemo cvDemo rngZero)
    rw [start_field_length, start_field_boost, start_field_count] at h
    have h2 : List.foldl fieldNumsApply (42, 0, 0) opsTo168
        = ((160 : ℕ), (0 : ℤ), (168 : ℕ)) := by decide
    rw [h2] at h
    have h3 := congrArg Prod.fst h
    have h4 := congrArg (fun t => t.2.2) h
    simp only at h3 h4
    exact ⟨h4, h3⟩

/-! ### Glow pulse lemmas and claims C4 / C7 -/

/-- Pulse rendering preserves the ring list length. -/
theorem renderAllPulses_length (ps : List Pulse) (cv : Canvas) :
    (renderAllPulses ps cv).1.length = ps.length := by
  induction ps generalizing cv with
  | nil => rfl
  | cons p ps ih => simp [renderAllPulses, ih]

/-- Every rendered ring owns a canvas item. -/
theorem renderAllPulses_mem (ps : List Pulse) (cv : Canvas) :
    ∀ q ∈ (renderAllPulses ps cv).1, q.item ≠ -1 := by
  induction ps generalizing cv with
  | nil => intro q hq; simp [renderAllPulses] at hq
  | cons p ps ih =>
    intro q hq
    simp only [renderAllPulses, List.mem_cons] at hq
    rcases hq with rfl | hq
    · split_ifs with h1
      · simp only [Canvas.create_oval]
        omega
      · exact h1
    · exact ih _ q hq

/-- The cap-eviction loop never forgets an already deleted item. -/
theorem deletePulseVisuals_mono (ps : List Pulse) (cv : Canvas) :
    ∀ i ∈ cv.deleted, i ∈ (deletePulseVisuals ps cv).deleted := by
  induction ps generalizing cv with
  | nil => intro i hi; exact hi
  | cons p ps ih =>
    intro i hi
    simp only [deletePulseVisuals]
    split_ifs with h
    · exact ih _ i (List.mem_cons_of_mem _ hi)
    · exact ih _ i hi

/-- The cap-eviction loop deletes the visual of every listed ring that has
one. -/
theorem deletePulseVisuals_mem (ps : List Pulse) (cv : Canvas) :
    ∀ q ∈ ps, q.item ≠ -1 → q.item ∈ (deletePulseVisuals ps cv).deleted := by
  induction ps generalizing cv with
  | nil => intro q hq; simp at hq
  | cons p ps ih =>
    intro q hq hitem
    simp only [List.mem_cons] at hq
    simp only [deletePulseVisuals]
    rcases hq with rfl | hq
    · rw [if_pos hitem]
      exact deletePulseVisuals_mono ps _ _ (by simp [Canvas.deleteItem])
    · split_ifs with h
      · exact ih _ q hq hitem
      · exact ih _ q hq hitem

/-- Every ring in the pre-eviction list of a pulse step owns a canvas
item. -/
theorem pulse_stepPre_mem (gp : GlowPulse) (cv : Canvas) (g : Rng) :
    ∀ q ∈ (gp.stepPre cv g).1.pulses, q.item ≠ -1 := by
  intro q hq
  unfold GlowPulse.stepPre at hq
  exact renderAllPulses_mem _ _ q hq

/-- A full pulse step leaves at most 8 rings. -/
theorem pulse_step_le (gp : GlowPulse) (cv : Canvas) (g : Rng) :
    (gp.step cv g).1.pulses.length ≤ 8 := by
  by_cases h : (gp.stepPre cv g).1.pulses.length > 8
  · simp only [GlowPulse.step, h, if_true, List.length_drop]
    omega
  · simp only [GlowPulse.step, h, if_false]
    omega

/-- A fresh glow pulse has no rings. -/
theorem pulse_start_length (palette : List String) (cv : Canvas) (g : Rng) :
    (PulseSys.start palette cv g).pulse.pulses.length = 0 := by
  simp [PulseSys.start, GlowPulse.start, GlowPulse.kick]

/-- Any interleaving of `kick()` and `step()` keeps the ring count at or
below 8, provided it starts there. -/
theorem pulse_run_le (ops : List PulseOp) (s : PulseSys)
    (hs : s.pulse.pulses.length ≤ 8) :
    (s.run ops).pulse.pulses.length ≤ 8 := by
  induction ops generalizing s with
  | nil => exact hs
  | cons op ops ih =>
    show ((s.apply op).run ops).pulse.pulses.length ≤ 8
    cases op with
    | kick k => exact ih _ hs
    | step => exact ih _ (pulse_step_le s.pulse s.canvas s.rng)

/-- C4: for every frame count and every interleaving of `kick()` calls the
glow pulse holds at most 8 rings after each `step()` (and already at
start); when the cap drops rings, the dropped ones are exactly the oldest
prefix `pulses[:-8]` of the pre-eviction list, the kept ones the suffix
`pulses[-8:]`, and each dropped ring's visual is deleted. -/
theorem C4_pulse_cap_fifo :
    (∀ (palette : List String) (cv : Canvas) (g : Rng) (ops : List PulseOp),
      ((PulseSys.start palette cv g).run ops).pulse.pulses.length ≤ 8)
    ∧ ∀ (gp : GlowPulse) (cv : Canvas) (g : Rng),
      (gp.step cv g).1.pulses
          = (gp.stepPre cv g).1.pulses.drop
              ((gp.stepPre cv g).1.pulses.length - 8)
      ∧ ((gp.stepPre cv g).1.pulses.take
            ((gp.stepPre cv g).1.pulses.length - 8)).Forall
          (fun q => q.item ∈ (gp.step cv g).2.1.deleted) := by
  constructor
  · intro palette cv g ops
    exact pulse_run_le ops _ (by rw [pulse_start_length]; norm_num)
  · intro gp cv g
    by_cases h : (gp.stepPre cv g).1.pulses.length > 8
    · constructor
      · simp only [GlowPulse.step, h, if_true]
      · rw [List.forall_iff_forall_mem]
        intro q hq
        simp only [GlowPulse.step, h, if_true]
        exact deletePulseVisuals_mem _ _ q hq
          (pulse_stepPre_mem gp cv g q (List.take_subset _ _ hq))
    · have hz : (gp.stepPre cv g).1.pulses.length - 8 = 0 := by omega
      constructor
      · simp only [GlowPulse.step, h, if_false, hz, List.drop_zero]
      · rw [hz, List.take_zero]
        exact trivial

/-- C7 counterexample: with identical random draws, doubling the strength
changes neither the initial radius (6 in both cases here) nor doubles the
growth rate, so neither quantity is proportional to strength. -/
theorem C7_counterexample :
    (spawnPulse 100 100 1 rngZero).1.r = 6
    ∧ (spawnPulse 100 100 2 rngZero).1.r = 6
    ∧ ¬ ((spawnPulse 100 100 2 rngZero).1.r
          = 2 * (spawnPulse 100 100 1 rngZero).1.r)
    ∧ ¬ ((spawnPulse 100 100 2 rngZero).1.vr
          = 2 * (spawnPulse 100 100 1 rngZero).1.vr) := by
  refine ⟨?_, ?_, ?_, ?_⟩ <;> norm_num [spawnPulse, Rng.random, rngZero]

/-- C7 amended: a spawned ring starts at a random position in the central
region (cx in [0.22w, 0.78w), cy in [0.28h, 0.72h) for unit draws); its
growth rate `1.6 + strength * 3.2` and life `0.65 + strength * 0.8` are
strictly increasing affine functions of the strength; its initial radius is
random in [6, 28) and does not depend on the strength. -/
theorem C7_spawn_characterization (w h : ℤ) (hw : 0 < w) (hh : 0 < h)
    (s s1 s2 : ℚ) (g : Rng)
    (hu : ∀ n, 0 ≤ g.realOf n ∧ g.realOf n < 1) :
    (0.22 * (w : ℚ) ≤ (spawnPulse w h s g).1.cx
      ∧ (spawnPulse w h s g).1.cx < 0.78 * (w : ℚ))
    ∧ (0.28 * (h : ℚ) ≤ (spawnPulse w h s g).1.cy
      ∧ (spawnPulse w h s g).1.cy < 0.72 * (h : ℚ))
    ∧ (6 ≤ (spawnPulse w h s g).1.r ∧ (spawnPulse w h s g).1.r < 28)
    ∧ (spawnPulse w h s g).1.vr = 1.6 + s * 3.2
    ∧ (spawnPulse w h s g).1.life = 0.65 + s * 0.8
    ∧ (spawnPulse w h s1 g).1.r = (spawnPulse w h s2 g).1.r
    ∧ (s1 < s2 → (spawnPulse w h s1 g).1.vr < (spawnPulse w h s2 g).1.vr) := by
  have hwq : (0 : ℚ) < (w : ℚ) := by exact_mod_cast hw
  have hhq : (0 : ℚ) < (h : ℚ) := by exact_mod_cast hh
  obtain ⟨h1a, h1b⟩ := hu g.pos
  obtain ⟨h2a, h2b⟩ := hu (g.pos + 1)
  obtain ⟨h3a, h3b⟩ := hu (g.pos + 1 + 1)
  refine ⟨⟨?_, ?_⟩, ⟨?_, ?_⟩, ⟨?_, ?_⟩, ?_, ?_, ?_, fun hlt => ?_⟩ <;>
    simp only [spawnPulse, Rng.random] <;> nlinarith

/-- Witness for the amended C7 at w = h = 100, s1 = 0 < 1 = s2 with the
all-zeros stream. -/
theorem C7_spawn_characterization_witness :
    ((0 : ℤ) < 100 ∧ ∀ n, 0 ≤ rngZero.realOf n ∧ rngZero.realOf n < 1)
    ∧ (spawnPulse 100 100 0 rngZero).1.r = (spawnPulse 100 100 1 rngZero).1.r
    ∧ (spawnPulse 100 100 0 rngZero).1.vr
        < (spawnPulse 100 100 1 rngZero).1.vr :=
  ⟨⟨by decide, fun n => ⟨by norm_num [rngZero], by norm_num [rngZero]⟩⟩,
    (C7_spawn_characterization 100 100 (by decide) (by decide) 1 0 1 rngZero
      (fun n => ⟨by norm_num [rngZero], by norm_num [rngZero]⟩)).2.2.2.2.2.1,
    (C7_spawn_characterization 100 100 (by decide) (by decide) 1 0 1 rngZero
      (fun n => ⟨by norm_num [rngZero], by norm_num [rngZero]⟩)).2.2.2.2.2.2 (by norm_num)⟩

/-! ### Credits overlay: reveal (C1) and close (C2) -/

/-- The credit lines after the reveal fired. -/
def revealedLines : List String :=
  replaceAuthorOnce AUTHOR_FIRST AUTHOR_LAST credits_lines

/-- On already revealed lines the reveal check is the identity: the
replacement can fire at most once per session. -/
theorem reveal_fixpoint (t : ℚ) :
    revealAuthorIfNeeded 50 "Alex" "Dubois" t revealedLines
      = revealedLines := by
  unfold revealAuthorIfNeeded
  split_ifs
  · rfl
  · decide

/-- A frame at or past the delay turns the original scene into the
revealed scene. -/
theorem reveal_fires (t : ℚ) (ht : ¬ t * 1000 < 50) :
    revealAuthorIfNeeded 50 "Alex" "Dubois" t credits_lines
      = revealedLines := by
  unfold revealAuthorIfNeeded
  rw [if_neg ht]
  rfl

/-- Frames processed from the revealed scene leave it unchanged. -/
theorem foldl_revealed (ts : List ℚ) :
    ts.foldl (fun lines t => revealAuthorIfNeeded 50 "Alex" "Dubois" t lines)
      revealedLines = revealedLines := by
  induction ts with
  | nil => rfl
  | cons t ts ih => rw [List.foldl_cons, reveal_fixpoint t, ih]

/-- The session scene is fully determined by whether some processed frame
was at or past the reveal delay. -/
theorem runFrames_eq (ts : List ℚ) :
    runCreditsFrames 50 "Alex" "Dubois" ts
      = if ∃ t ∈ ts, ¬ t * 1000 < 50 then revealedLines
        else credits_lines := by
  show ts.foldl _ credits_lines = _
  induction ts with
  | nil => simp [runCreditsFrames]
  | cons t ts ih =>
    rw [List.foldl_cons]
    by_cases ht : t * 1000 < 50
    · have hkeep : revealAuthorIfNeeded 50 "Alex" "Dubois" t credits_lines
          = credits_lines := by
        unfold revealAuthorIfNeeded
        rw [if_pos ht]
      rw [hkeep, ih]
      by_cases hex : ∃ x ∈ ts, ¬ x * 1000 < 50
      · obtain ⟨x, hx, hnx⟩ := hex
        rw [if_pos ⟨x, hx, hnx⟩,
          if_pos ⟨x, List.mem_cons_of_mem _ hx, hnx⟩]
      · rw [if_neg hex, if_neg ?_]
        rintro ⟨x, hx, hnx⟩
        rcases List.mem_cons.mp hx with rfl | hx2
        · exact hnx ht
        · exact hex ⟨x, hx2, hnx⟩
    · rw [reveal_fires t ht, foldl_revealed,
        if_pos ⟨t, List.mem_cons_self t ts, ht⟩]

/-- C1: in a `show()` session with `reveal_delay_ms = 50`, after any prefix
of frames all below 50 ms the sentinel line still reads the redacted
placeholder; after any prefix containing a frame at or past 50 ms it reads
the revealed author; and once revealed, a further reveal check changes
nothing, so the replacement fires at most once per session. -/
theorem C1_reveal_semantics (ts : List ℚ) :
    (∀ n, (∀ t ∈ ts.take n, t * 1000 < 50) →
        (runCreditsFrames 50 "Alex" "Dubois" (ts.take n)).get? 12
          = some "Author: [REDACTED]")
    ∧ (∀ n, (∃ t ∈ ts.take n, ¬ t * 1000 < 50) →
        (runCreditsFrames 50 "Alex" "Dubois" (ts.take n)).get? 12
          = some "Author: Alex Dubois")
    ∧ ∀ t : ℚ, revealAuthorIfNeeded 50 "Alex" "Dubois" t revealedLines
        = revealedLines := by
  refine ⟨?_, ?_, reveal_fixpoint⟩
  · intro n hall
    have hno : ¬ ∃ x ∈ ts.take n, ¬ x * 1000 < 50 := by
      rintro ⟨x, hx, hnx⟩
      exact hnx (hall x hx)
    rw [runFrames_eq, if_neg hno]
    decide
  · intro n hex
    rw [runFrames_eq, if_pos hex]
    decide

/-- Witness for C1 with frames at 10 ms and 60 ms: after the first frame
the sentinel is still redacted, after the second it shows the author. -/
theorem C1_reveal_semantics_witness :
    ((∀ t ∈ ([1/100, 6/100] : List ℚ).take 1, t * 1000 < 50)
      ∧ (runCreditsFrames 50 "Alex" "Dubois"
            (([1/100, 6/100] : List ℚ).take 1)).get? 12
          = some "Author: [REDACTED]")
    ∧ ((∃ t ∈ ([1/100, 6/100] : List ℚ).take 2, ¬ t * 1000 < 50)
      ∧ (runCreditsFrames 50 "Alex" "Dubois"
            (([1/100, 6/100] : List ℚ).take 2)).get? 12
          = some "Author: Alex Dubois") := by
  have hmem : (6/100 : ℚ) ∈ ([1/100, 6/100] : List ℚ).take 2 := by
    exact List.mem_cons_of_mem _ (List.mem_cons_self _ _)
  have hall : ∀ t ∈ ([1/100, 6/100] : List ℚ).take 1, t * 1000 < 50 := by
    intro t ht
    have : t = 1/100 := by simpa using ht
    rw [this]
    norm_num
  refine ⟨⟨hall, (C1_reveal_semantics [1/100, 6/100]).1 1 hall⟩,
    ⟨⟨6/100, hmem, by norm_num⟩,
      (C1_reveal_semantics [1/100, 6/100]).2.1 2 ⟨6/100, hmem, by norm_num⟩⟩⟩

/-- `close()` leaves `_running` false whatever happens during teardown. -/
theorem close_running (flt : TeardownFaults) (s : OverlayState) :
    (CreditsOverlay.close flt s).running = false := by
  unfold CreditsOverlay.close
  split_ifs with h
  · exact h
  all_goals cases s.job <;> rfl

/-- `close()` on a non-running overlay is a no-op. -/
theorem close_not_running (flt : TeardownFaults) (s : OverlayState)
    (h : s.running = false) : CreditsOverlay.close flt s = s := by
  unfold CreditsOverlay.close
  rw [if_pos h]

/-- `close()` on a shown overlay invokes the close callback exactly once,
whatever teardown steps raise. -/
theorem close_calls (flt : TeardownFaults) (s : OverlayState)
    (h : s.running = true) :
    (CreditsOverlay.close flt s).closeCalls = s.closeCalls + 1 := by
  unfold CreditsOverlay.close
  rw [if_neg (by simp [h])]
  split_ifs <;> cases s.job <;> rfl

/-- C2: dismissing a shown overlay runs the caller's close callback exactly
once, regardless of which teardown steps (timer cancel, grab release,
widget destroy, in any failure combination) raise; a second `close()` right
after is a no-op that runs no callback; and `close()` on an overlay that is
not shown is a no-op. -/
theorem C2_close_idempotent (s : OverlayState) (f1 f2 : TeardownFaults)
    (h : s.running = true) :
    (CreditsOverlay.close f1 s).closeCalls = s.closeCalls + 1
    ∧ CreditsOverlay.close f2 (CreditsOverlay.close f1 s)
        = CreditsOverlay.close f1 s
    ∧ ∀ s2 : OverlayState, s2.running = false →
        CreditsOverlay.close f2 s2 = s2 :=
  ⟨close_calls f1 s h,
    close_not_running f2 _ (close_running f1 s),
    fun s2 h2 => close_not_running f2 s2 h2⟩

/-- A concrete shown overlay used by the C2 witness. -/
def overlayShown : OverlayState :=
  { running := true, job := some 1, grabbed := true, destroyed := false,
    closeCalls := 0 }

/-- A concrete fault pattern: timer cancel and widget destroy raise. -/
def faultsCancelDestroy : TeardownFaults :=
  { cancelFails := true, grabFails := false, destroyFails := true }

/-- A concrete fault pattern: nothing raises. -/
def faultsNone : TeardownFaults :=
  { cancelFails := false, grabFails := false, destroyFails := false }

/-- Witness for C2: a concrete shown overlay whose timer cancel and widget
destroy raise during teardown still runs the callback exactly once. -/
theorem C2_close_idempotent_witness :
    overlayShown.running = true
    ∧ (CreditsOverlay.close faultsCancelDestroy overlayShown).closeCalls
        = overlayShown.closeCalls + 1 :=
  ⟨rfl, (C2_close_idempotent overlayShown faultsCancelDestroy faultsNone
    rfl).1⟩

/-! ### Application shell: run demo (C8) and stats timer (C9) -/

/-- Each workload iteration appends exactly 4 payload bytes. -/
theorem runDemoLoop_length (bits : ℕ → ℕ) (n : ℕ) (acc : ℕ × List ℕ) :
    ((List.range n).foldl (runDemoIter bits) acc).2.length
      = acc.2.length + 4 * n := by
  induction n generalizing acc with
  | zero => simp
  | succ n ih =>
    rw [List.range_succ, List.foldl_append]
    simp only [List.foldl_cons, List.foldl_nil, runDemoIter,
      List.length_append, ih, to_bytes4, List.length_cons, List.length_nil]
    omega

/-- The synthetic workload always produces a 480-byte payload. -/
theorem runDemoWork_length (bits : ℕ → ℕ) :
    (runDemoWork bits).2.length = 480 := by
  unfold runDemoWork
  rw [runDemoLoop_length]
  rfl

/-- C8: every Run Demo invocation bumps the run counter by exactly 1 and
the byte counter by exactly 480 (120 draws of 4 bytes), for every draw
stream; the counters do not depend on the stream, only the checksum can. -/
theorem C8_run_demo_counters (st : AppState) (bits bits2 : ℕ → ℕ)
    (field : ParticleField) (pulse : GlowPulse) :
    (onRunDemo st bits field pulse).1.runs = st.runs + 1
    ∧ (onRunDemo st bits field pulse).1.bytes_processed
        = st.bytes_processed + 480
    ∧ (onRunDemo st bits2 field pulse).1.runs
        = (onRunDemo st bits field pulse).1.runs
    ∧ (onRunDemo st bits2 field pulse).1.bytes_processed
        = (onRunDemo st bits field pulse).1.bytes_processed := by
  have h1 := runDemoWork_length bits
  have h2 := runDemoWork_length bits2
  unfold onRunDemo
  refine ⟨rfl, ?_, rfl, ?_⟩ <;> simp only [h1, h2]

/-- C9 counterexample: the stats tick is not registered with a 62.5 ms
cadence — both `after` delays in `_schedule_ticks` are 250 ms. -/
theorem C9_counterexample :
    ¬ ((statsTimer.repeatDelayMs : ℚ) = 62.5
        ∧ (statsTimer.firstDelayMs : ℚ) = 62.5) := by
  intro hc
  have h := hc.1
  norm_num [statsTimer] at h

/-- C9 amended: the stats-refresh timer is a repeating timer with a 250 ms
cadence (4 Hz): registered with `after(250, tick)`, re-registered by each
tick with the same delay, firing at 250(n+1) ms; its callback recomputes
and displays uptime, run count, particle count and byte count. -/
theorem C9_stats_timer_cadence :
    statsTimer.firstDelayMs = 250 ∧ statsTimer.repeatDelayMs = 250
    ∧ (∀ n, statsTimer.fireTimeMs n = 250 * (n + 1))
    ∧ ∀ (now : ℚ) (st : AppState) (f : ParticleField),
        syncStats now st f
          = (fmt_uptime (now - st.start_time), toString st.runs,
              toString f.count, fmt_bytes st.bytes_processed) := by
  refine ⟨rfl, rfl, fun n => ?_, fun now st f => rfl⟩
  simp only [RepeatingTimer.fireTimeMs, statsTimer]
  omega

/-- A concrete fresh field with no pending boost for the C5 witness. -/
def fieldZero : ParticleField :=
  { palette := paletteDemo, particles := [], boostPending := 0, count := 0 }

/-- The C5 witness system: `boost(24)` on a field with no pending boost. -/
def drainSys : FieldSys :=
  { field := fieldZero.boost 24, canvas := cvDemo, rng := rngZero }

/-- Witness for C5: `boost(24)` drains to zero over 3 steps (8, 8, 8). -/
theorem C5_boost_drain_witness :
    fieldZero.boostPending = 0 ∧ (0 : ℤ) ≤ 24
    ∧ (drainSys.run (List.replicate 3 FieldOp.step)).field.boostPending = 0 := by
  refine ⟨rfl, by decide, ?_⟩
  have h := (C5_boost_drain fieldZero cvDemo rngZero 24 rfl (by decide) 3).1
  norm_num at h
  exact h
